import Mathlib

/-!
Verification of the ansys-micromechanics core numerics against its
natural-language specification.

The Python source computes with IEEE-754 doubles. Numbers are modelled as
exact rationals extended with the three special values (`FVal`), with the
IEEE propagation rules for the special values and with overflow: a finite
result whose magnitude exceeds the largest finite float64 becomes the
correspondingly signed infinity, as in the machine. Rounding and gradual
underflow of in-range results are not modelled (a finite result stays
exact); no checked claim depends on where an in-range result is rounded.
-/

namespace AnsysMicro

/-- Idealized floating-point value: an exact rational or one of the IEEE
special values. -/
inductive FVal where
  | fin : ℚ → FVal
  | pinf : FVal
  | ninf : FVal
  | nan : FVal
deriving DecidableEq, Repr

namespace FVal

/-- `np.isfinite` on one value. -/
def isFinite : FVal → Bool
  | fin _ => true
  | _ => false

/-- IEEE negation. -/
def fneg : FVal → FVal
  | fin a => fin (-a)
  | pinf => ninf
  | ninf => pinf
  | nan => nan

/-- The largest finite float64, `(2 - 2^-52) * 2^1023`, as an exact
rational. -/
def FMAX : ℚ := (2 ^ 53 - 1) * 2 ^ 971

/-- A finite arithmetic result overflows to the signed infinity when its
magnitude exceeds the largest finite float64, as IEEE arithmetic does;
within range it is kept exact. -/
def clampF (q : ℚ) : FVal :=
  if FMAX < q then pinf else if q < -FMAX then ninf else fin q

/-- IEEE addition: special values propagate, and a finite sum beyond the
float64 range overflows to the signed infinity. -/
def fadd : FVal → FVal → FVal
  | nan, _ => nan
  | _, nan => nan
  | fin a, fin b => clampF (a + b)
  | fin _, pinf => pinf
  | fin _, ninf => ninf
  | pinf, fin _ => pinf
  | ninf, fin _ => ninf
  | pinf, pinf => pinf
  | ninf, ninf => ninf
  | pinf, ninf => nan
  | ninf, pinf => nan

/-- IEEE multiplication: special values propagate, and a finite product
beyond the float64 range overflows to the signed infinity. -/
def fmul : FVal → FVal → FVal
  | nan, _ => nan
  | _, nan => nan
  | fin a, fin b => clampF (a * b)
  | fin a, pinf => if 0 < a then pinf else if a < 0 then ninf else nan
  | fin a, ninf => if 0 < a then ninf else if a < 0 then pinf else nan
  | pinf, fin b => if 0 < b then pinf else if b < 0 then ninf else nan
  | ninf, fin b => if 0 < b then ninf else if b < 0 then pinf else nan
  | pinf, pinf => pinf
  | pinf, ninf => ninf
  | ninf, pinf => ninf
  | ninf, ninf => pinf

/-- IEEE division: special values propagate, a finite quotient beyond the
float64 range overflows to the signed infinity (the model has no signed
zero, so a zero divisor is treated as +0, which matches every division the
source performs on coordinates produced as nonnegative extents). -/
def fdiv : FVal → FVal → FVal
  | nan, _ => nan
  | _, nan => nan
  | fin a, fin b =>
      if b = 0 then (if a = 0 then nan else if 0 < a then pinf else ninf)
      else clampF (a / b)
  | fin _, pinf => fin 0
  | fin _, ninf => fin 0
  | pinf, fin b => if b < 0 then ninf else pinf
  | ninf, fin b => if b < 0 then pinf else ninf
  | pinf, pinf => nan
  | pinf, ninf => nan
  | ninf, pinf => nan
  | ninf, ninf => nan

/-- IEEE subtraction. -/
def fsub (a b : FVal) : FVal := fadd a (fneg b)

end FVal

open FVal

/-- A 3-vector of model floats (one nodal coordinate/displacement/force). -/
def Vec3 : Type := Fin 3 → FVal

/-- A 3x3 tensor of model floats. -/
def Mat3 : Type := Fin 3 → Fin 3 → FVal

/-- Elementwise vector subtraction (`a - b` on numpy arrays). -/
def vsub (a b : Vec3) : Vec3 := fun i => fsub (a i) (b i)

/-- Elementwise reciprocal (`1.0 / a` on a numpy array). -/
def vrecip (a : Vec3) : Vec3 := fun i => fdiv (fin 1) (a i)

/-- `np.outer(a, b)`. -/
def outer (a b : Vec3) : Mat3 := fun i j => fmul (a i) (b j)

/-- Elementwise matrix addition. -/
def matAdd (a b : Mat3) : Mat3 := fun i j => fadd (a i j) (b i j)

/-- `np.transpose`. -/
def matTranspose (a : Mat3) : Mat3 := fun i j => a j i

/-- utils.nonfinite_to_zero: `np.where(np.isfinite(array), array, 0.0)`. -/
def nonfinite_to_zero (a : Mat3) : Mat3 :=
  fun i j => if (a i j).isFinite then a i j else fin 0

/-- `functools.reduce(lambda x, y: x + y, l)` on a list of matrices (the
source only applies it to nonempty lists; the empty case is a junk value). -/
def reduceMatAdd : List Mat3 → Mat3
  | [] => fun _ _ => fin 0
  | x :: xs => xs.foldl matAdd x

/-- ResultsHandler.calculate_displacement_gradient: relative coordinates of
the four retained nodes, then the sum over nodes 1..3 of the cleaned outer
products `nonfinite_to_zero(outer(disp_n, 1 / rel_coord_n))`. -/
def calculate_displacement_gradient (coords disps : Fin 4 → Vec3) : Mat3 :=
  let rel_coord : Fin 4 → Vec3 := fun k => vsub (coords k) (coords ⟨0, by omega⟩)
  reduceMatAdd
    (([⟨1, by omega⟩, ⟨2, by omega⟩, ⟨3, by omega⟩] : List (Fin 4)).map fun n =>
      nonfinite_to_zero (outer (disps n) (vrecip (rel_coord n))))

/-- ResultsHandler.calculate_macro_strain:
`0.5 * (disp_grad + np.transpose(disp_grad))`. -/
def calculate_macro_strain (coords disps : Fin 4 → Vec3) : Mat3 :=
  let disp_grad := calculate_displacement_gradient coords disps
  fun i j => fmul (fin (1/2)) ((matAdd disp_grad (matTranspose disp_grad)) i j)

/-- itertools.permutations(l, 2): ordered pairs of distinct positions, in
lexicographic order of positions. -/
def perms2 {α : Type} [DecidableEq α] (l : List α) : List (α × α) :=
  l.flatMap fun i => (l.filter fun j => j ≠ i).map fun j => (i, j)

/-- The three per-load-case effective property lists computed by
ResultsHandler.calculate_properties. -/
structure PropertyResults where
  elasticModuli : List FVal
  poissonsRatios : List FVal
  shearModuli : List FVal
deriving DecidableEq, Repr

/-- ResultsHandler.calculate_properties, property-derivation part: from the
macroscopic stress, strain, and displacement-gradient tensors compute
elastic moduli, Poisson ratios, and shear moduli, enumerating off-diagonal
index pairs with `itertools.permutations(range(3), r=2)`. -/
def calculate_properties (macro_stress macro_strain displacement_gradient : Mat3) :
    PropertyResults where
  elasticModuli :=
    (List.finRange 3).map fun i => fdiv (macro_stress i i) (macro_strain i i)
  poissonsRatios :=
    (perms2 (List.finRange 3)).map fun p =>
      fdiv (fmul (fin (-1)) (macro_strain p.2 p.2)) (macro_strain p.1 p.1)
  shearModuli :=
    (perms2 (List.finRange 3)).map fun p =>
      fdiv (macro_stress p.2 p.1) (displacement_gradient p.2 p.1)

/-! LoadingHandler: direction codes to deformation ("strain*") tensors.
Tensor cells are `Option ℚ`: `none` is Python `None` (an unconstrained
degree of freedom), `some q` a prescribed coefficient. -/

/-- Python `tensor[i][j] = v` on a list of lists (out-of-range indices are
never reached under the direction-code grammar). -/
def setCell (t : List (List (Option ℚ))) (i j : ℕ) (v : Option ℚ) :
    List (List (Option ℚ)) :=
  t.set i ((t.getD i []).set j v)

/-- LoadingHandler.convert_direction_to_strain_tensor. The direction string
is modelled as its character list; `int(x) - 1` on a digit character is
`c.toNat - 48 - 1`. -/
def convert_direction_to_strain_tensor (direction : List Char)
    (normal_mag shear_mag : ℚ) (lengths : List ℚ) : List (List (Option ℚ)) :=
  let base : List (List (Option ℚ)) :=
    [[some 0, some 0, some 0], [some 0, some 0, some 0], [some 0, some 0, some 0]]
  let sign : ℚ := if direction.length == 3 then -1 else 1
  let ds := direction.drop (direction.length - 2)
  let i : ℕ := (ds.getD 0 '0').toNat - 48 - 1
  let j : ℕ := (ds.getD 1 '0').toNat - 48 - 1
  let mag := if i == j then normal_mag else shear_mag
  let mag := mag / lengths.getD i 0
  let tensor := setCell base i j (some (sign * mag))
  if i == j then
    setCell (setCell tensor ((i + 1) % 3) ((i + 1) % 3) none)
      ((i + 2) % 3) ((i + 2) % 3) none
  else tensor

/-- The tensor the specification's words predict for decoded indices
`(i, j)` and signed normalized magnitude `v`: `v` at `[i][j]`; when
`i = j` the other two diagonal entries are null; all remaining entries 0.
Stated from the spec, to be compared with the source translation. -/
def spec_direction_tensor (i j : ℕ) (v : ℚ) : List (List (Option ℚ)) :=
  (List.range 3).map fun a =>
    (List.range 3).map fun b =>
      if a = i ∧ b = j then some v
      else if i = j ∧ a = b then none
      else some 0

/-! PBCHandler: cleaning, sorting and pairing of opposite-face nodes.
A face node is a 3D coordinate (`ℚ × ℚ × ℚ`) plus a node number (`ℤ`). -/

/-- PBCHandler.EPSILON: `np.finfo(float).eps * 1e3`. -/
def EPSILON : ℚ := (1 / 2 ^ 52) * 1000

/-- `np.delete(nodes, axis_index, axis=1)` on one row: drop the coordinate
of the face axis, keeping the two transverse coordinates in order. -/
def delete_axis (axis_index : Fin 3) (v : ℚ × ℚ × ℚ) : ℚ × ℚ :=
  if axis_index.val = 0 then (v.2.1, v.2.2)
  else if axis_index.val = 1 then (v.1, v.2.2)
  else (v.1, v.2.1)

/-- `np.where(np.abs(nodes) > EPSILON, nodes, 0.0)` on one cleaned row. -/
def snap_zero (p : ℚ × ℚ) : ℚ × ℚ :=
  (if |p.1| > EPSILON then p.1 else 0, if |p.2| > EPSILON then p.2 else 0)

/-- PBCHandler.clean_node_coords: delete the face axis column, then snap
near-zero values to exactly zero. -/
def clean_node_coords (nodes : List (ℚ × ℚ × ℚ)) (axis_index : Fin 3) :
    List (ℚ × ℚ) :=
  (nodes.map (delete_axis axis_index)).map snap_zero

/-- The comparison realized by `np.lexsort(np.transpose(nodes))` on an
(n,2) array: `np.lexsort` uses the LAST key as the primary sort key, and
the last row of the transpose is the second coordinate column. -/
def lexsort_le (a b : ℚ × ℚ) : Bool :=
  decide (a.2 < b.2 ∨ (a.2 = b.2 ∧ a.1 ≤ b.1))

/-- PBCHandler.sort_2d_with_index: hstack the coordinates with the node
numbers and reorder the rows by `np.lexsort(np.transpose(nodes))`.
`np.lexsort` is a stable sort, so indexing the combined rows by the
returned permutation is the stable sort of the records by `lexsort_le` on
their coordinate part. -/
def sort_2d_with_index (nodes : List (ℚ × ℚ)) (node_nums : List ℤ) :
    List ((ℚ × ℚ) × ℤ) :=
  (nodes.zip node_nums).mergeSort fun a b => lexsort_le a.1 b.1

/-- The sort the specification's words describe: lexicographic with the
FIRST remaining coordinate as the primary key. Stated from the spec, to be
compared with the source translation. -/
def lexfirst_le (a b : ℚ × ℚ) : Bool :=
  decide (a.1 < b.1 ∨ (a.1 = b.1 ∧ a.2 ≤ b.2))

/-- Sorting step as worded in the spec (primary key = first remaining
axis), for comparison with `sort_2d_with_index`. -/
def sort_2d_with_index_spec (nodes : List (ℚ × ℚ)) (node_nums : List ℤ) :
    List ((ℚ × ℚ) × ℤ) :=
  (nodes.zip node_nums).mergeSort fun a b => lexfirst_le a.1 b.1

/-- Strict ordering of face records by their cleaned coordinates, second
coordinate primary: the order `np.lexsort` leaves the records in when no
two records share a coordinate pair. -/
def rec_key_lt (a b : (ℚ × ℚ) × ℤ) : Prop :=
  a.1.2 < b.1.2 ∨ (a.1.2 = b.1.2 ∧ a.1.1 < b.1.1)

/-- PBCHandler.verify_equality on the sorted cleaned coordinates
(`np.array_equal`). -/
def verify_equality (arr1 arr2 : List (ℚ × ℚ)) : Bool := arr1 == arr2

/-- The per-axis core of PBCHandler.find_node_pairs: clean both faces,
sort each with its node numbers, check the sorted cleaned coordinates
agree, and zip the node numbers of same-index records into pairs. A failed
check is the GeometryMismatchError (an `assert` in the source). -/
def find_node_pairs_axis (nodes_pos : List (ℚ × ℚ × ℚ)) (nnum_pos : List ℤ)
    (nodes_neg : List (ℚ × ℚ × ℚ)) (nnum_neg : List ℤ) (axis_index : Fin 3) :
    Except String (List (ℤ × ℤ)) :=
  let face_nodes_pos := sort_2d_with_index (clean_node_coords nodes_pos axis_index) nnum_pos
  let face_nodes_neg := sort_2d_with_index (clean_node_coords nodes_neg axis_index) nnum_neg
  if verify_equality (face_nodes_pos.map Prod.fst) (face_nodes_neg.map Prod.fst) then
    Except.ok (List.zip (face_nodes_pos.map Prod.snd) (face_nodes_neg.map Prod.snd))
  else
    Except.error "GeometryMismatchError"

/-! ResultsHandler.collect_expected_properties, TestCaseSkeleton label
checks and result compression. -/

/-- ResultsHandler.AVAILABLE_PROPERTIES, in source order. -/
def AVAILABLE_PROPERTIES : List String :=
  ["E11", "E22", "E33",
   "G12", "G13", "G21", "G23", "G31", "G32",
   "v12", "v13", "v21", "v23", "v31", "v32"]

/-- Python `str.lower()` (the labels are ASCII). -/
def str_lower (s : String) : String := ⟨s.data.map Char.toLower⟩

/-- `np.unique` on a 1-D array of strings: sorted distinct values. -/
def np_unique (l : List String) : List String :=
  (l.mergeSort fun a b => decide (a ≤ b)).dedup

/-- TestCaseSkeleton.unique_expected_properties, first component:
`np.unique(np.hstack(expectedProperties))`. -/
def unique_expected_properties (sets : List (List String)) : List String :=
  np_unique sets.flatten

/-- TestCaseSkeleton.unique_expected_properties, second component: the
occurrence counts matching the unique values. -/
def unique_expected_counts (sets : List (List String)) : List ℕ :=
  (unique_expected_properties sets).map fun p => sets.flatten.count p

/-- TestCaseSkeleton.check_parameters forbidden-property tuple. -/
def forbidden_props : List String :=
  ["E12", "E13", "E21", "E23", "E31", "E32",
   "G11", "G22", "G33",
   "v11", "v22", "v33"]

/-- The forbidden-property check of TestCaseSkeleton.check_parameters: the
`assert not bad_props` whose failure is the spec's ReportAssemblyError,
carrying the offending labels. -/
def check_forbidden_properties (sets : List (List String)) :
    Except (List String) Unit :=
  let bad := (unique_expected_properties sets).filter fun p => decide (p ∈ forbidden_props)
  if bad.isEmpty then Except.ok () else Except.error bad

/-- One pandas cell: a number, a string (only in the "Label" row), or
empty (NaN). -/
inductive Cell where
  | num : ℚ → Cell
  | str : String → Cell
  | empty : Cell
deriving DecidableEq, Repr

/-- The reportedProperties DataFrame: rows keyed by their label, each row
holding one cell per load-case column in column order. -/
abbrev Table : Type := List (String × List Cell)

/-- `bfill(axis=1).iloc[:, 0]` on one row: the first non-empty cell
scanning the load-case columns left to right. -/
def bfill_first : List Cell → Cell
  | [] => Cell.empty
  | Cell.empty :: rest => bfill_first rest
  | c :: _ => c

/-- TestCaseSkeleton.compress_results: if every requested property has
count 1 across load cases, prepend the backward-fill column (whose "Label"
cell is set to "Full") and report success; otherwise leave the table
unchanged and report failure. -/
def compress_results (props : List (List String)) (t : Table) : Bool × Table :=
  if (unique_expected_counts props).all fun c => c == 1 then
    (true, t.map fun row =>
      (row.1, (if row.1 = "Label" then Cell.str "Full" else bfill_first row.2) :: row.2))
  else
    (false, t)

/-- One load case's calculated property lists (ResultsHandler.results
entry). -/
structure PropSets where
  elasticModuli : List ℚ
  shearModuli : List ℚ
  poissonsRatios : List ℚ
deriving DecidableEq, Repr

/-- The `key_map` of collect_expected_properties. -/
def key_map : List (String × String) :=
  [("E", "elasticModuli"), ("G", "shearModuli"), ("v", "poissonsRatios")]

/-- Dictionary access `results_set[field_name]`. -/
def results_set_get (ps : PropSets) (field_name : String) : Option (List ℚ) :=
  if field_name = "elasticModuli" then some ps.elasticModuli
  else if field_name = "shearModuli" then some ps.shearModuli
  else if field_name = "poissonsRatios" then some ps.poissonsRatios
  else none

/-- The `index_map` of collect_expected_properties: off-diagonal pair
strings in `itertools.permutations("123", r=2)` order mapped to 0..5,
union the diagonal strings mapped to 0..2. -/
def index_map : List (String × ℕ) :=
  (List.zip ((perms2 ['1', '2', '3']).map fun p => String.mk [p.1, p.2])
      (List.range 6)) ++
    List.zip ["11", "22", "33"] (List.range 3)

/-- `results_set[key_map[prop[0]]][index_map[prop[1:]]]`; a missing key or
index is the corresponding Python KeyError/IndexError. -/
def prop_value (ps : PropSets) (prop : String) : Except String ℚ :=
  match key_map.lookup (String.mk (prop.data.take 1)) with
  | none => Except.error "KeyError: key_map"
  | some field_name =>
    match results_set_get ps field_name with
    | none => Except.error "KeyError: results_set"
    | some field =>
      match index_map.lookup (String.mk (prop.data.drop 1)) with
      | none => Except.error "KeyError: index_map"
      | some i =>
        match field.get? i with
        | none => Except.error "IndexError: field"
        | some v => Except.ok v

/-- The in-place sentinel expansion loop of collect_expected_properties:
`expected_property_sets[i]` is replaced by AVAILABLE_PROPERTIES when its
first entry lowercases to "all". -/
def first_is_all : List String → Bool
  | [] => false
  | p :: _ => str_lower p == "all"

/-- The enumerate-and-replace loop, folded over the indices as the Python
`for i, prop_set in enumerate(...)` does on the list it mutates. -/
def expand_property_sets (sets : List (List String)) : List (List String) :=
  (List.range sets.length).foldl
    (fun acc i => if first_is_all (acc.getD i []) then acc.set i AVAILABLE_PROPERTIES else acc)
    sets

/-- `reportedProperties.loc[prop, load_case] = v`: set the cell of the row
labelled `rowLabel` in column position `colIdx`. -/
def table_set_cell (t : Table) (rowLabel : String) (colIdx : ℕ) (v : Cell) : Table :=
  t.map fun row => if row.1 = rowLabel then (row.1, row.2.set colIdx v) else row

/-- `reportedProperties.loc["Label"] = labels`. -/
def set_label_row (t : Table) (ls : List String) : Table :=
  t.map fun row => if row.1 = "Label" then (row.1, ls.map Cell.str) else row

/-- The column position addressed by `.loc[prop, load_case]`: the position
of this pair's load-case key among the DataFrame columns
(`results.keys()`). -/
def colIdx (results : List (ℕ × PropSets))
    (pr : List String × (ℕ × PropSets)) : ℕ :=
  (results.map Prod.fst).indexOf pr.2.1

/-- The double fill loop of collect_expected_properties: for each
`(prop_set, (load_case, results_set))` produced by `zip` (which stops at
the shorter sequence), write each requested property's value into that
row and load-case column. -/
def fill_properties (results : List (ℕ × PropSets))
    (pairs : List (List String × (ℕ × PropSets))) (t : Table) :
    Except String Table :=
  pairs.foldlM
    (fun acc pair =>
      pair.1.foldlM
        (fun acc2 prop => do
          let v ← prop_value pair.2.2 prop
          pure (table_set_cell acc2 prop (colIdx results pair) (Cell.num v)))
        acc)
    t

/-- The value the fill loop writes for label `lbl` from pair `pr`, when the
lookup succeeds. -/
def vD (pr : List String × (ℕ × PropSets)) (lbl : String) : ℚ :=
  ((prop_value pr.2.2 lbl).toOption).getD 0

/-- The cumulative effect of the fill loop on one row's cells: each pair
requesting the row's label overwrites that pair's column with its value. -/
def cellsAfter (results : List (ℕ × PropSets))
    (pairs : List (List String × (ℕ × PropSets))) (lbl : String)
    (cells : List Cell) : List Cell :=
  pairs.foldl
    (fun cs pr =>
      if lbl ∈ pr.1 then cs.set (colIdx results pr) (Cell.num (vD pr lbl)) else cs)
    cells

/-- ResultsHandler.collect_expected_properties: validate the load-case
count, expand "all", broadcast a single property set, build the empty
DataFrame (rows = sorted unique labels, plus a leading "Label" row when
labels are given), and fill it from the zipped property sets and result
sets. -/
def collect_expected_properties (results : List (ℕ × PropSets))
    (expected_property_sets : List (List String)) (num_load_cases : ℕ)
    (labels : Option (List String)) : Except String Table :=
  if num_load_cases ≠ results.length then
    Except.error "Expected results sets count mismatch"
  else
    let sets1 := expand_property_sets expected_property_sets
    let sets := if sets1.length = 1 ∧ 1 < num_load_cases then
        (List.replicate num_load_cases sets1).flatten
      else sets1
    if sets.flatten.isEmpty ∧ sets.isEmpty then
      Except.error "hstack of empty sequence"
    else
      let df_index :=
        match labels with
        | some _ => "Label" :: np_unique sets.flatten
        | none => np_unique sets.flatten
      let base : Table := df_index.map fun lbl => (lbl, List.replicate results.length Cell.empty)
      let base :=
        match labels with
        | some ls => set_label_row base ls
        | none => base
      fill_properties results (sets.zip results) base

/-- Cleaning an outer-product term makes every entry finite, whatever the
inputs were. -/
theorem nonfinite_to_zero_isFinite (m : Mat3) (i j : Fin 3) :
    ((nonfinite_to_zero m) i j).isFinite = true := by
  simp only [nonfinite_to_zero]
  split
  · assumption
  · rfl

/-- A clamped finite result is a number or a signed infinity, never NaN. -/
theorem clampF_ne_nan (q : ℚ) : clampF q ≠ nan := by
  unfold clampF
  split
  · exact fun h => FVal.noConfusion h
  · split
    · exact fun h => FVal.noConfusion h
    · exact fun h => FVal.noConfusion h

/-- Adding a finite value to a non-NaN value cannot produce NaN: a finite
sum at worst overflows to a signed infinity. -/
theorem fadd_ne_nan_right_fin {a b : FVal} (ha : a ≠ nan)
    (hb : b.isFinite = true) : fadd a b ≠ nan := by
  cases a <;> cases b <;>
    simp_all [fadd, isFinite, clampF_ne_nan]

/-- Halving a non-NaN value cannot produce NaN. -/
theorem fmul_half_ne_nan {x : FVal} (hx : x ≠ nan) :
    fmul (fin (1 / 2)) x ≠ nan := by
  cases x with
  | fin q => simp [fmul, clampF_ne_nan]
  | pinf =>
    simp only [fmul]
    rw [if_pos (by norm_num)]
    exact fun h => FVal.noConfusion h
  | ninf =>
    simp only [fmul]
    rw [if_pos (by norm_num)]
    exact fun h => FVal.noConfusion h
  | nan => exact absurd rfl hx

/-- C1: for every 3x3 stress, strain and displacement-gradient tensor, the
property derivation returns elasticModuli[i] = stress[i,i] / strain[i,i]
for i = 0,1,2 and, over the ordered off-diagonal pairs
(0,1),(0,2),(1,0),(1,2),(2,0),(2,1), poissonsRatios[k] =
-strain[j,j] / strain[i,i] and shearModuli[k] =
stress[j,i] / displacementGradient[j,i]. -/
theorem claim_c1_property_derivation (s e d : Mat3) :
    calculate_properties s e d =
      { elasticModuli :=
          [fdiv (s 0 0) (e 0 0), fdiv (s 1 1) (e 1 1), fdiv (s 2 2) (e 2 2)],
        poissonsRatios :=
          [fdiv (fmul (fin (-1)) (e 1 1)) (e 0 0),
           fdiv (fmul (fin (-1)) (e 2 2)) (e 0 0),
           fdiv (fmul (fin (-1)) (e 0 0)) (e 1 1),
           fdiv (fmul (fin (-1)) (e 2 2)) (e 1 1),
           fdiv (fmul (fin (-1)) (e 0 0)) (e 2 2),
           fdiv (fmul (fin (-1)) (e 1 1)) (e 2 2)],
        shearModuli :=
          [fdiv (s 1 0) (d 1 0), fdiv (s 2 0) (d 2 0),
           fdiv (s 0 1) (d 0 1), fdiv (s 2 1) (d 2 1),
           fdiv (s 0 2) (d 0 2), fdiv (s 1 2) (d 1 2)] } := rfl

/-- C2: a direction code matching -?[1-3][1-3] decoding to (i, j), with any
magnitudes and nonzero edge lengths, produces the tensor with
sign * (magnitude / edgeLengths[i]) at [i][j] (normal magnitude iff i = j),
nulls at the two other diagonal cells when i = j, and zeros elsewhere. -/
theorem claim_c2_direction_tensor (s : Bool) (d1 d2 : Char)
    (normal_mag shear_mag L0 L1 L2 : ℚ)
    (hd1 : d1 ∈ ['1', '2', '3']) (hd2 : d2 ∈ ['1', '2', '3'])
    (hL0 : L0 ≠ 0) (hL1 : L1 ≠ 0) (hL2 : L2 ≠ 0) :
    convert_direction_to_strain_tensor ((if s then ['-'] else []) ++ [d1, d2])
        normal_mag shear_mag [L0, L1, L2] =
      spec_direction_tensor (d1.toNat - 48 - 1) (d2.toNat - 48 - 1)
        ((if s then (-1 : ℚ) else 1) *
          ((if d1 = d2 then normal_mag else shear_mag) /
            [L0, L1, L2].getD (d1.toNat - 48 - 1) 0)) := by
  fin_cases hd1 <;> fin_cases hd2 <;> cases s <;> rfl

/-- C2 witness: direction "11" with normalMagnitude 0.002 and edges
[10,10,10] gives 0.0002 at [0][0] with nulls on the other diagonal cells;
direction "-12" with shearMagnitude 0.001 gives -0.0001 at [0][1] with no
nulls. -/
theorem claim_c2_direction_tensor_witness :
    convert_direction_to_strain_tensor ['1', '1'] 0.002 0 [10, 10, 10] =
      spec_direction_tensor 0 0 0.0002 ∧
    convert_direction_to_strain_tensor ['-', '1', '2'] 0 0.001 [10, 10, 10] =
      spec_direction_tensor 0 1 (-0.0001) := by
  constructor
  · have h := claim_c2_direction_tensor false '1' '1' 0.002 0 10 10 10
      (by simp) (by simp) (by norm_num) (by norm_num) (by norm_num)
    norm_num +decide [spec_direction_tensor,
      show ('1'.toNat - 48 - 1) = 0 from rfl,
      show ('2'.toNat - 48 - 1) = 1 from rfl] at h ⊢
    exact h
  · have h := claim_c2_direction_tensor true '1' '2' 0 0.001 10 10 10
      (by simp) (by simp) (by norm_num) (by norm_num) (by norm_num)
    norm_num +decide [spec_direction_tensor,
      show ('1'.toNat - 48 - 1) = 0 from rfl,
      show ('2'.toNat - 48 - 1) = 1 from rfl] at h ⊢
    exact h

/-- C5: with the four retained nodes at the unit corner positions and all
data zero except node 1's displacement (0.01, 0, 0), the displacement
gradient is 0.01 at [0][0] and 0 everywhere else, the non-finite entries
of each outer-product term having been zeroed before summation. -/
theorem claim_c5_displacement_gradient_example :
    ∀ i j : Fin 3,
      calculate_displacement_gradient
        (fun k i => fin (if (k : ℕ) = (i : ℕ) + 1 then 1 else 0))
        (fun k i => fin (if (k : ℕ) = 1 ∧ (i : ℕ) = 0 then 1 / 100 else 0)) i j =
      (if (i : ℕ) = 0 ∧ (j : ℕ) = 0 then fin (1 / 100) else fin 0) := by
  rintro ⟨iv, hi⟩ ⟨jv, hj⟩
  interval_cases iv <;> interval_cases jv <;>
    norm_num [calculate_displacement_gradient, reduceMatAdd, matAdd,
      nonfinite_to_zero, outer, vrecip, vsub, fsub, fadd, fneg, fmul, fdiv,
      isFinite, clampF, FMAX]

/-- A finite value is not NaN. -/
theorem ne_nan_of_isFinite {a : FVal} (ha : a.isFinite = true) : a ≠ nan := by
  cases a <;> simp_all [isFinite]

/-- C9 counterexample: with finite inputs - nodes 1 and 2 both one unit
along x from node 0 and both displaced by 1e308 along x - the two cleaned
outer-product terms contribute 1e308 each at entry [0][0], and their
float64 sum overflows to infinity, so the returned entry is not finite. -/
theorem claim_c9_overflow_counterexample :
    (∀ k i,
      (((fun k i => fin (if ((k : ℕ) = 1 ∨ (k : ℕ) = 2) ∧ (i : ℕ) = 0 then (1 : ℚ)
          else if (k : ℕ) = 3 ∧ (i : ℕ) = 2 then 1 else 0)) :
        Fin 4 → Vec3) k i).isFinite = true ∧
      (((fun k i => fin (if ((k : ℕ) = 1 ∨ (k : ℕ) = 2) ∧ (i : ℕ) = 0
          then (10 : ℚ) ^ 308 else 0)) :
        Fin 4 → Vec3) k i).isFinite = true) ∧
    ((calculate_displacement_gradient
        (fun k i => fin (if ((k : ℕ) = 1 ∨ (k : ℕ) = 2) ∧ (i : ℕ) = 0 then (1 : ℚ)
          else if (k : ℕ) = 3 ∧ (i : ℕ) = 2 then 1 else 0))
        (fun k i => fin (if ((k : ℕ) = 1 ∨ (k : ℕ) = 2) ∧ (i : ℕ) = 0
          then (10 : ℚ) ^ 308 else 0)))
      ⟨0, by omega⟩ ⟨0, by omega⟩).isFinite = false := by
  constructor
  · intro k i
    exact ⟨rfl, rfl⟩
  · norm_num [calculate_displacement_gradient, reduceMatAdd, matAdd,
      nonfinite_to_zero, outer, vrecip, vsub, fsub, fadd, fneg, fmul, fdiv,
      isFinite, clampF, FMAX]

/-- C9 amended: for all finite retained-node coordinates and displacements,
including ones whose relative position has zero components, every entry of
each cleaned outer-product summand is finite (the NaN and infinity
artifacts of the divisions are zeroed before summation), so no non-finite
value produced by the divisions can propagate: an entry of the returned
displacement gradient can be non-finite only by overflow of the sums of
finite terms, and is then a signed infinity, never NaN; when the gradient
is entirely finite, the symmetrized macro strain is likewise free of NaN. -/
theorem claim_c9_no_nan_amended (coords disps : Fin 4 → Vec3)
    (h : ∀ k i, (coords k i).isFinite = true ∧ (disps k i).isFinite = true) :
    (∀ (n : Fin 4) (i j : Fin 3),
      ((nonfinite_to_zero (outer (disps n)
        (vrecip (vsub (coords n) (coords ⟨0, by omega⟩))))) i j).isFinite = true) ∧
    (∀ i j, calculate_displacement_gradient coords disps i j ≠ nan) ∧
    ((∀ i j, (calculate_displacement_gradient coords disps i j).isFinite = true) →
      ∀ i j, calculate_macro_strain coords disps i j ≠ nan) := by
  refine ⟨fun n i j => nonfinite_to_zero_isFinite _ i j, fun i j => ?_, ?_⟩
  · simp only [calculate_displacement_gradient, List.map_cons, List.map_nil,
      reduceMatAdd, List.foldl_cons, List.foldl_nil, matAdd]
    exact fadd_ne_nan_right_fin
      (fadd_ne_nan_right_fin
        (ne_nan_of_isFinite (nonfinite_to_zero_isFinite _ _ _))
        (nonfinite_to_zero_isFinite _ _ _))
      (nonfinite_to_zero_isFinite _ _ _)
  · intro hfin i j
    simp only [calculate_macro_strain, matAdd, matTranspose]
    exact fmul_half_ne_nan
      (fadd_ne_nan_right_fin (ne_nan_of_isFinite (hfin i j)) (hfin j i))

/-- C9 amended witness: at the all-zero nodal data (whose relative
coordinates are entirely zero) the returned [0][0] entry is not NaN. -/
theorem claim_c9_no_nan_amended_witness :
    calculate_displacement_gradient (fun _ _ => fin 0) (fun _ _ => fin 0)
      ⟨0, by omega⟩ ⟨0, by omega⟩ ≠ nan :=
  (claim_c9_no_nan_amended (fun _ _ => fin 0) (fun _ _ => fin 0)
    (fun _ _ => ⟨rfl, rfl⟩)).2.1 ⟨0, by omega⟩ ⟨0, by omega⟩

/-- The record comparison realized by the source sort is transitive. -/
theorem lexsort_le_trans (a b c : ℚ × ℚ) (hab : lexsort_le a b = true)
    (hbc : lexsort_le b c = true) : lexsort_le a c = true := by
  simp only [lexsort_le, decide_eq_true_eq] at *
  rcases hab with h | ⟨e, h⟩ <;> rcases hbc with h2 | ⟨e2, h2⟩
  · exact Or.inl (lt_trans h h2)
  · exact Or.inl (e2 ▸ h)
  · exact Or.inl (e ▸ h2)
  · exact Or.inr ⟨e.trans e2, le_trans h h2⟩

/-- The record comparison realized by the source sort is total. -/
theorem lexsort_le_total (a b : ℚ × ℚ) :
    (lexsort_le a b || lexsort_le b a) = true := by
  simp only [lexsort_le, Bool.or_eq_true, decide_eq_true_eq]
  rcases lt_trichotomy a.2 b.2 with h | h | h
  · exact Or.inl (Or.inl h)
  · rcases le_total a.1 b.1 with h1 | h1
    · exact Or.inl (Or.inr ⟨h, h1⟩)
    · exact Or.inr (Or.inr ⟨h.symm, h1⟩)
  · exact Or.inr (Or.inl h)

/-- A list sorted by the non-strict record comparison whose coordinate
pairs are distinct is sorted by the strict comparison. -/
theorem pairwise_rec_key_lt_of_sorted (l : List ((ℚ × ℚ) × ℤ))
    (hp : l.Pairwise fun a b => lexsort_le a.1 b.1 = true)
    (hnd : (l.map Prod.fst).Nodup) : l.Pairwise rec_key_lt := by
  have hne : l.Pairwise fun a b => a.1 ≠ b.1 := List.pairwise_map.mp hnd
  refine (hp.and hne).imp ?_
  rintro a b ⟨hle, hne1⟩
  simp only [lexsort_le, decide_eq_true_eq] at hle
  rcases hle with h | ⟨e, h⟩
  · exact Or.inl h
  · rcases lt_or_eq_of_le h with h1 | h1
    · exact Or.inr ⟨e, h1⟩
    · exact absurd (Prod.ext h1 e) hne1

set_option maxHeartbeats 1000000 in
/-- Two permutation-equivalent record lists with distinct coordinate pairs
sort to the same list. -/
theorem mergeSort_records_eq_of_perm (l1 l2 : List ((ℚ × ℚ) × ℤ))
    (hperm : l1.Perm l2) (hnd : (l1.map Prod.fst).Nodup) :
    (l1.mergeSort fun a b => lexsort_le a.1 b.1) =
      (l2.mergeSort fun a b => lexsort_le a.1 b.1) := by
  haveI : IsAntisymm ((ℚ × ℚ) × ℤ) rec_key_lt := by
    constructor
    intro a b h1 h2
    exfalso
    rcases h1 with h1 | ⟨e1, f1⟩ <;> rcases h2 with h2 | ⟨e2, f2⟩ <;> linarith
  have hnd2 : (l2.map Prod.fst).Nodup := ((hperm.map Prod.fst).nodup_iff).mp hnd
  have hp1 : (l1.mergeSort fun a b => lexsort_le a.1 b.1).Perm l1 :=
    List.mergeSort_perm l1 _
  have hp2 : (l2.mergeSort fun a b => lexsort_le a.1 b.1).Perm l2 :=
    List.mergeSort_perm l2 _
  have hs1 := List.sorted_mergeSort
    (fun a b c hab hbc => lexsort_le_trans a.1 b.1 c.1 hab hbc)
    (fun a b => lexsort_le_total a.1 b.1) l1
  have hs2 := List.sorted_mergeSort
    (fun a b c hab hbc => lexsort_le_trans a.1 b.1 c.1 hab hbc)
    (fun a b => lexsort_le_total a.1 b.1) l2
  exact List.eq_of_perm_of_sorted (hp1.trans (hperm.trans hp2.symm))
    (pairwise_rec_key_lt_of_sorted _ hs1
      ((hp1.map Prod.fst).nodup_iff.mpr hnd))
    (pairwise_rec_key_lt_of_sorted _ hs2
      ((hp2.map Prod.fst).nodup_iff.mpr hnd2))

/-- The clean-and-sort half of the face pairing is insensitive to any
reordering of the supplied (coordinate, node number) records, provided the
cleaned coordinate pairs are distinct. -/
theorem sort_2d_perm_invariant (nodesA nodesB : List (ℚ × ℚ × ℚ))
    (numsA numsB : List ℤ) (axis_index : Fin 3)
    (hlenA : nodesA.length = numsA.length) (hlenB : nodesB.length = numsB.length)
    (hperm : (nodesA.zip numsA).Perm (nodesB.zip numsB))
    (hnd : (clean_node_coords nodesA axis_index).Nodup) :
    sort_2d_with_index (clean_node_coords nodesA axis_index) numsA =
      sort_2d_with_index (clean_node_coords nodesB axis_index) numsB := by
  have hclean : ∀ nodes : List (ℚ × ℚ × ℚ),
      clean_node_coords nodes axis_index =
        nodes.map fun v => snap_zero (delete_axis axis_index v) := by
    intro nodes
    simp [clean_node_coords, List.map_map, Function.comp]
  unfold sort_2d_with_index
  apply mergeSort_records_eq_of_perm
  · rw [hclean, hclean, List.zip_map_left, List.zip_map_left]
    exact hperm.map _
  · rw [hclean, List.zip_map_left, List.map_map]
    have h2 : (Prod.fst ∘ Prod.map (fun v => snap_zero (delete_axis axis_index v)) (@id ℤ)) =
        ((fun v : ℚ × ℚ × ℚ => snap_zero (delete_axis axis_index v)) ∘
          (Prod.fst : (ℚ × ℚ × ℚ) × ℤ → ℚ × ℚ × ℚ)) := rfl
    rw [h2, ← List.map_map, List.map_fst_zip _ _ (le_of_eq hlenA), ← hclean]
    exact hnd

/-- C3 counterexample: on the cleaned records (0,1) with node 10 and (1,0)
with node 20, the source sort orders (1,0) first (its SECOND coordinate,
the primary `np.lexsort` key, is smaller), while a sort with the first
remaining axis as primary key, as the claim states, would order (0,1)
first. -/
theorem claim_c3_sort_key_counterexample :
    sort_2d_with_index [((0 : ℚ), (1 : ℚ)), ((1 : ℚ), (0 : ℚ))] [10, 20] =
      [(((1 : ℚ), (0 : ℚ)), 20), (((0 : ℚ), (1 : ℚ)), 10)] ∧
    sort_2d_with_index_spec [((0 : ℚ), (1 : ℚ)), ((1 : ℚ), (0 : ℚ))] [10, 20] =
      [(((0 : ℚ), (1 : ℚ)), 10), (((1 : ℚ), (0 : ℚ)), 20)] ∧
    sort_2d_with_index [((0 : ℚ), (1 : ℚ)), ((1 : ℚ), (0 : ℚ))] [10, 20] ≠
      sort_2d_with_index_spec [((0 : ℚ), (1 : ℚ)), ((1 : ℚ), (0 : ℚ))] [10, 20] := by
  refine ⟨?_, ?_, ?_⟩ <;>
    norm_num [sort_2d_with_index, sort_2d_with_index_spec,
      lexsort_le, lexfirst_le, List.mergeSort, List.merge]

/-- C3 amended: the face-pair resolver sorts each face's cleaned
(coordinate, node id) records lexicographically by the two remaining
coordinates with PRIMARY key the second remaining axis and secondary key
the first remaining axis: the result is a permutation of the records,
non-decreasing in that order. -/
theorem claim_c3_sort_order_amended (nodes : List (ℚ × ℚ)) (node_nums : List ℤ) :
    (sort_2d_with_index nodes node_nums).Perm (nodes.zip node_nums) ∧
    (sort_2d_with_index nodes node_nums).Pairwise
      (fun a b => lexsort_le a.1 b.1 = true) :=
  ⟨List.mergeSort_perm _ _,
   List.sorted_mergeSort
     (fun a b c hab hbc => lexsort_le_trans a.1 b.1 c.1 hab hbc)
     (fun a b => lexsort_le_total a.1 b.1) _⟩

/-- C8: the per-axis face pairing returns the same ordered pair sequence
when the input records of either (or both) faces are permuted, for valid
inputs: coordinate and node-number lists of matching lengths whose cleaned
coordinate pairs are distinct within each face. -/
theorem claim_c8_pairing_order_independent
    (nodes_pos1 nodes_pos2 nodes_neg1 nodes_neg2 : List (ℚ × ℚ × ℚ))
    (nnum_pos1 nnum_pos2 nnum_neg1 nnum_neg2 : List ℤ) (axis_index : Fin 3)
    (hlp1 : nodes_pos1.length = nnum_pos1.length)
    (hlp2 : nodes_pos2.length = nnum_pos2.length)
    (hln1 : nodes_neg1.length = nnum_neg1.length)
    (hln2 : nodes_neg2.length = nnum_neg2.length)
    (hpermP : (nodes_pos1.zip nnum_pos1).Perm (nodes_pos2.zip nnum_pos2))
    (hpermN : (nodes_neg1.zip nnum_neg1).Perm (nodes_neg2.zip nnum_neg2))
    (hndP : (clean_node_coords nodes_pos1 axis_index).Nodup)
    (hndN : (clean_node_coords nodes_neg1 axis_index).Nodup) :
    find_node_pairs_axis nodes_pos1 nnum_pos1 nodes_neg1 nnum_neg1 axis_index =
      find_node_pairs_axis nodes_pos2 nnum_pos2 nodes_neg2 nnum_neg2 axis_index := by
  unfold find_node_pairs_axis
  rw [sort_2d_perm_invariant nodes_pos1 nodes_pos2 nnum_pos1 nnum_pos2 axis_index
      hlp1 hlp2 hpermP hndP,
    sort_2d_perm_invariant nodes_neg1 nodes_neg2 nnum_neg1 nnum_neg2 axis_index
      hln1 hln2 hpermN hndN]

/-- C8 witness: swapping the two records of the positive face of a
two-node-per-face z-axis example leaves the pairing unchanged. -/
theorem claim_c8_pairing_order_independent_witness :
    find_node_pairs_axis [((0 : ℚ), (0 : ℚ), (1 : ℚ)), (1, 5, 1)] [1, 2]
        [((0 : ℚ), (0 : ℚ), (0 : ℚ)), (1, 5, 0)] [3, 4] ⟨2, by omega⟩ =
      find_node_pairs_axis [((1 : ℚ), (5 : ℚ), (1 : ℚ)), (0, 0, 1)] [2, 1]
        [((0 : ℚ), (0 : ℚ), (0 : ℚ)), (1, 5, 0)] [3, 4] ⟨2, by omega⟩ :=
  claim_c8_pairing_order_independent _ _ _ _ _ _ _ _ ⟨2, by omega⟩
    rfl rfl rfl rfl
    (by simp only [List.zip_cons_cons, List.zip_nil_right]
        exact List.Perm.swap _ _ _)
    (List.Perm.refl _)
    (by norm_num [clean_node_coords, delete_axis, snap_zero, EPSILON, Prod.ext_iff])
    (by norm_num [clean_node_coords, delete_axis, snap_zero, EPSILON, Prod.ext_iff])

/-- Membership in `np.unique` of a flattened label list is membership in
the list. -/
theorem mem_np_unique {a : String} {l : List String} :
    a ∈ np_unique l ↔ a ∈ l := by
  unfold np_unique
  rw [List.mem_dedup]
  exact (List.mergeSort_perm l _).mem_iff

/-- C4: whenever a requested label is one of the diagonal shear or Poisson
labels, the parameter check fails with the error that lists the offending
labels, the requested label among them. -/
theorem claim_c4_diagonal_labels_rejected (sets : List (List String)) (p : String)
    (hdiag : p ∈ ["G11", "G22", "G33", "v11", "v22", "v33"])
    (hreq : p ∈ sets.flatten) :
    check_forbidden_properties sets =
      Except.error ((unique_expected_properties sets).filter fun q =>
        decide (q ∈ forbidden_props)) ∧
    p ∈ (unique_expected_properties sets).filter fun q =>
        decide (q ∈ forbidden_props) := by
  have hforb : p ∈ forbidden_props := by
    fin_cases hdiag <;> decide
  have hmem : p ∈ unique_expected_properties sets := by
    unfold unique_expected_properties
    exact mem_np_unique.mpr hreq
  have hbad : p ∈ (unique_expected_properties sets).filter fun q =>
      decide (q ∈ forbidden_props) :=
    List.mem_filter.mpr ⟨hmem, by simpa using hforb⟩
  refine ⟨?_, hbad⟩
  unfold check_forbidden_properties
  rw [if_neg]
  intro h
  rw [List.isEmpty_iff] at h
  exact absurd (h ▸ hbad) (List.not_mem_nil p)

/-- C4 witness: a request consisting of the single label "G11" is rejected
with an error naming "G11". -/
theorem claim_c4_diagonal_labels_rejected_witness :
    (check_forbidden_properties [["G11"]] =
      Except.error ((unique_expected_properties [["G11"]]).filter fun q =>
        decide (q ∈ forbidden_props)) ∧
    "G11" ∈ (unique_expected_properties [["G11"]]).filter fun q =>
        decide (q ∈ forbidden_props)) ∧
    ((unique_expected_properties [["G11"]]).filter fun q =>
        decide (q ∈ forbidden_props)) = ["G11"] :=
  ⟨claim_c4_diagonal_labels_rejected [["G11"]] "G11" (by decide) (by decide),
   by simp +decide [unique_expected_properties, np_unique, List.mergeSort]⟩

/-- The in-place sentinel replacement loop acts like the elementwise map
replacing exactly the sets whose first entry lowercases to "all". -/
theorem expand_property_sets_eq_map (sets : List (List String)) :
    expand_property_sets sets =
      sets.map fun s => if first_is_all s then AVAILABLE_PROPERTIES else s := by
  have hshift : ∀ (l : List ℕ) (x : List String) (acc : List (List String)),
      List.foldl
        (fun acc2 i =>
          if first_is_all (acc2.getD (i + 1) []) then acc2.set (i + 1) AVAILABLE_PROPERTIES
          else acc2)
        (x :: acc) l =
      x :: List.foldl
        (fun acc2 i =>
          if first_is_all (acc2.getD i []) then acc2.set i AVAILABLE_PROPERTIES else acc2)
        acc l := by
    intro l
    induction l with
    | nil => intro x acc; rfl
    | cons i t iht =>
      intro x acc
      rw [List.foldl_cons, List.foldl_cons]
      have hstep :
          (if first_is_all ((x :: acc).getD (i + 1) []) then
            (x :: acc).set (i + 1) AVAILABLE_PROPERTIES
          else x :: acc) =
          x :: (if first_is_all (acc.getD i []) then acc.set i AVAILABLE_PROPERTIES
            else acc) := by
        simp only [List.getD_cons_succ, List.set_cons_succ]
        split <;> rfl
      rw [hstep]
      exact iht _ _
  induction sets with
  | nil => rfl
  | cons s rest ih =>
    unfold expand_property_sets
    rw [List.length_cons, List.range_succ_eq_map, List.foldl_cons, List.foldl_map]
    have h0 : (if first_is_all ((s :: rest).getD 0 []) then
        (s :: rest).set 0 AVAILABLE_PROPERTIES else s :: rest) =
        (if first_is_all s then AVAILABLE_PROPERTIES else s) :: rest := by
      simp only [List.getD_cons_zero, List.set_cons_zero]
      split <;> rfl
    rw [h0]
    have := hshift (List.range rest.length)
      (if first_is_all s then AVAILABLE_PROPERTIES else s) rest
    simp only [Nat.succ_eq_add_one] at this ⊢
    rw [this]
    rw [List.map_cons]
    have ihu : List.foldl
        (fun acc2 i =>
          if first_is_all (acc2.getD i []) = true then acc2.set i AVAILABLE_PROPERTIES
          else acc2)
        rest (List.range rest.length) =
        List.map (fun s2 => if first_is_all s2 = true then AVAILABLE_PROPERTIES else s2)
          rest := ih
    rw [ihu]

/-- C6 counterexample: the set ["all", "E11"] does not consist solely of
the sentinel, yet the code expands it (only the FIRST entry is tested),
contradicting the claim that such a set is used as given. -/
theorem claim_c6_sentinel_counterexample :
    expand_property_sets [["all", "E11"]] = [AVAILABLE_PROPERTIES] ∧
    expand_property_sets [["all", "E11"]] ≠ [["all", "E11"]] := by
  have h := expand_property_sets_eq_map [["all", "E11"]]
  have hall : first_is_all ["all", "E11"] = true := by decide
  rw [h]
  constructor
  · simp [hall]
  · simp +decide [hall]

/-- C6 amended: a requested label-set is replaced by the fixed 15-label
vocabulary exactly when its FIRST entry is the sentinel "all" compared
case-insensitively; every other set is used as given. -/
theorem claim_c6_sentinel_expansion_amended (sets : List (List String)) :
    expand_property_sets sets =
      sets.map fun s => if first_is_all s then AVAILABLE_PROPERTIES else s :=
  expand_property_sets_eq_map sets

/-- The compression condition of the source (all np.unique counts equal 1)
says exactly that the flattened request list has no duplicates. -/
theorem all_counts_one_iff (props : List (List String)) :
    ((unique_expected_counts props).all fun c => c == 1) = true ↔
      props.flatten.Nodup := by
  unfold unique_expected_counts
  rw [List.all_eq_true]
  constructor
  · intro h
    rw [List.nodup_iff_count_eq_one]
    intro a ha
    have : (props.flatten.count a) == 1 := by
      apply h
      exact List.mem_map_of_mem _ (mem_np_unique.mpr ha)
    simpa using this
  · intro h c hc
    rw [List.mem_map] at hc
    obtain ⟨p, hp, rfl⟩ := hc
    have hpmem : p ∈ props.flatten := mem_np_unique.mp hp
    rw [List.nodup_iff_count_eq_one] at h
    simpa using h p hpmem

/-- With no duplicates inside any one load case, the total multiplicity of
a label equals the number of load cases requesting it. -/
theorem count_flatten_eq_countP (props : List (List String))
    (hnodup : ∀ s ∈ props, s.Nodup) (p : String) :
    props.flatten.count p = props.countP fun s => decide (p ∈ s) := by
  induction props with
  | nil => rfl
  | cons s rest ih =>
    rw [List.flatten_cons, List.count_append, List.countP_cons]
    have hs : s.count p = if p ∈ s then 1 else 0 := by
      by_cases h : p ∈ s
      · rw [if_pos h]
        exact List.count_eq_one_of_mem (hnodup s (List.mem_cons_self s rest)) h
      · rw [if_neg h]
        exact List.count_eq_zero_of_not_mem h
    rw [hs, ih fun t ht => hnodup t (List.mem_cons_of_mem s ht)]
    by_cases h : p ∈ s <;> simp [h] <;> omega

/-- A duplicate-free flattened request is the same as every requested
label occurring in exactly one load case. -/
theorem flatten_nodup_iff_each_once (props : List (List String))
    (hnodup : ∀ s ∈ props, s.Nodup) :
    props.flatten.Nodup ↔
      ∀ p ∈ props.flatten, (props.countP fun s => decide (p ∈ s)) = 1 := by
  rw [List.nodup_iff_count_eq_one]
  constructor
  · intro h p hp
    rw [← count_flatten_eq_countP props hnodup p]
    exact h p hp
  · intro h p hp
    rw [count_flatten_eq_countP props hnodup p]
    exact h p hp

/-- C7: with duplicate-free per-case requests, compression succeeds and
prepends exactly the backward-fill column (whose "Label" cell is "Full",
each other row holding its first non-empty cell) precisely when every
requested label occurs in exactly one load case; otherwise it returns
false and leaves the table unmodified. -/
theorem claim_c7_compression_iff (props : List (List String)) (t : Table)
    (hnodup : ∀ s ∈ props, s.Nodup) :
    (compress_results props t =
        (true, t.map fun row =>
          (row.1, (if row.1 = "Label" then Cell.str "Full" else bfill_first row.2) ::
            row.2)) ↔
      ∀ p ∈ props.flatten, (props.countP fun s => decide (p ∈ s)) = 1) ∧
    ((¬ ∀ p ∈ props.flatten, (props.countP fun s => decide (p ∈ s)) = 1) →
      compress_results props t = (false, t)) := by
  have hiff : ((unique_expected_counts props).all fun c => c == 1) = true ↔
      ∀ p ∈ props.flatten, (props.countP fun s => decide (p ∈ s)) = 1 :=
    (all_counts_one_iff props).trans (flatten_nodup_iff_each_once props hnodup)
  unfold compress_results
  by_cases h : ((unique_expected_counts props).all fun c => c == 1) = true
  · rw [if_pos h]
    refine ⟨⟨fun _ => hiff.mp h, fun _ => rfl⟩, fun hn => absurd (hiff.mp h) hn⟩
  · rw [if_neg h]
    constructor
    · constructor
      · intro heq
        exact absurd (congrArg Prod.fst heq) (by simp)
      · intro hr
        exact absurd (hiff.mpr hr) h
    · intro _
      rfl

/-- C7 witness: two load cases requesting E11 and E22 respectively
compress into a prepended collapsed column holding both values. -/
theorem claim_c7_compression_iff_witness :
    compress_results [["E11"], ["E22"]]
        [("E11", [Cell.num 5, Cell.empty]), ("E22", [Cell.empty, Cell.num 7])] =
      (true, [("E11", [Cell.num 5, Cell.num 5, Cell.empty]),
              ("E22", [Cell.num 7, Cell.empty, Cell.num 7])]) := by
  have h := (claim_c7_compression_iff [["E11"], ["E22"]]
    [("E11", [Cell.num 5, Cell.empty]), ("E22", [Cell.empty, Cell.num 7])]
    (by decide)).1.mpr (by decide)
  rw [h]
  simp +decide [bfill_first]


/-- One pair's inner fill loop: when every lookup succeeds, it returns the
table with this pair's column overwritten in every row whose label the pair
requests. -/
theorem inner_fill (results : List (ℕ × PropSets))
    (pr : List String × (ℕ × PropSets)) :
    ∀ (props : List String) (t : Table),
      (∀ p ∈ props, ∃ v, prop_value pr.2.2 p = Except.ok v) →
      (props.foldlM
        (fun acc2 prop => do
          let v ← prop_value pr.2.2 prop
          pure (table_set_cell acc2 prop (colIdx results pr) (Cell.num v)))
        t : Except String Table)
      = Except.ok (t.map fun row =>
          (row.1, if row.1 ∈ props then
            row.2.set (colIdx results pr) (Cell.num (vD pr row.1)) else row.2)) := by
  intro props
  induction props with
  | nil =>
    intro t hv
    rw [List.foldlM_nil]
    simp
    rfl
  | cons p ps ih =>
    intro t hv
    rw [List.foldlM_cons]
    obtain ⟨v, hvp⟩ := hv p (List.mem_cons_self p ps)
    have hv2 : vD pr p = v := by
      simp [vD, hvp, Except.toOption]
    have h1 : (do
          let v2 ← prop_value pr.2.2 p
          pure (table_set_cell t p (colIdx results pr) (Cell.num v2)) :
            Except String Table) =
        Except.ok (table_set_cell t p (colIdx results pr) (Cell.num v)) := by
      rw [hvp]
      rfl
    rw [h1]
    have h2 : ∀ (T2 : Table) (k : Table → Except String Table),
        (Except.ok T2 >>= k) = k T2 := fun _ _ => rfl
    rw [h2]
    rw [ih (table_set_cell t p (colIdx results pr) (Cell.num v))
        (fun q hq => hv q (List.mem_cons_of_mem p hq))]
    congr 1
    unfold table_set_cell
    rw [List.map_map]
    refine List.map_congr_left fun row hrow => ?_
    by_cases h1r : row.1 = p
    · by_cases h2r : row.1 ∈ ps
      · simp [Function.comp, h1r, h2r, List.set_set, List.mem_cons, hv2]
      · simp [Function.comp, h1r, h2r, hv2, List.mem_cons]
    · by_cases h2r : row.1 ∈ ps
      · simp [Function.comp, h1r, h2r, List.mem_cons]
      · simp [Function.comp, h1r, h2r, List.mem_cons]

/-- The whole fill loop: when every lookup succeeds it succeeds, and each
row's cells are the accumulated per-pair overwrites. -/
theorem fill_ok (results : List (ℕ × PropSets)) :
    ∀ (pairs : List (List String × (ℕ × PropSets))) (t : Table),
      (∀ pr ∈ pairs, ∀ p ∈ pr.1, ∃ v, prop_value pr.2.2 p = Except.ok v) →
      fill_properties results pairs t =
        Except.ok (t.map fun row => (row.1, cellsAfter results pairs row.1 row.2)) := by
  intro pairs
  induction pairs with
  | nil =>
    intro t hv
    unfold fill_properties
    rw [List.foldlM_nil]
    simp [cellsAfter]
    rfl
  | cons pr rest ih =>
    intro t hv
    unfold fill_properties
    simp only [List.foldlM_cons]
    rw [inner_fill results pr pr.1 t (hv pr (List.mem_cons_self pr rest))]
    have h2 : ∀ (T2 : Table) (k : Table → Except String Table),
        (Except.ok T2 >>= k) = k T2 := fun _ _ => rfl
    rw [h2]
    have ihu := ih (t.map fun row =>
        (row.1, if row.1 ∈ pr.1 then
          row.2.set (colIdx results pr) (Cell.num (vD pr row.1)) else row.2))
      (fun q hq p hp => hv q (List.mem_cons_of_mem pr hq) p hp)
    unfold fill_properties at ihu
    rw [ihu]
    rw [List.map_map]
    rfl

/-- The fill loop never changes a row's width. -/
theorem cellsAfter_length (results : List (ℕ × PropSets)) :
    ∀ (pairs : List (List String × (ℕ × PropSets))) (lbl : String)
      (cells : List Cell),
      (cellsAfter results pairs lbl cells).length = cells.length := by
  intro pairs
  induction pairs with
  | nil => intro lbl cells; rfl
  | cons pr rest ih =>
    intro lbl cells
    rw [show cellsAfter results (pr :: rest) lbl cells =
        cellsAfter results rest lbl
          (if lbl ∈ pr.1 then
            cells.set (colIdx results pr) (Cell.num (vD pr lbl)) else cells) from rfl]
    rw [ih]
    by_cases h : lbl ∈ pr.1 <;> simp [h]

/-- In a duplicate-free key list, the index of the k-th key is k. -/
theorem indexOf_get_nodup :
    ∀ (l : List ℕ), l.Nodup → ∀ (k : ℕ) (hk : k < l.length),
      List.indexOf (l.get ⟨k, hk⟩) l = k := by
  intro l
  induction l with
  | nil =>
    intro _ k hk
    simp at hk
  | cons a t ih =>
    intro hnd k hk
    cases k with
    | zero => simpa using List.indexOf_cons_self a t
    | succ n =>
      have hn : n < t.length := by simpa using hk
      have hmem : t.get ⟨n, hn⟩ ∈ t := List.get_mem t n hn
      have hne : a ≠ t.get ⟨n, hn⟩ :=
        fun he => (List.nodup_cons.mp hnd).1 (he ▸ hmem)
      rw [show (a :: t).get ⟨n + 1, hk⟩ = t.get ⟨n, hn⟩ from rfl]
      rw [List.indexOf_cons_ne t hne]
      rw [ih (List.nodup_cons.mp hnd).2 n hn]

/-- Cell-level description of the fill loop when the pairs target columns
off, off+1, ...: column c is overwritten exactly when some pair targets it
and requests the row's label, and is untouched otherwise. -/
theorem cellsAfter_getD (results : List (ℕ × PropSets)) :
    ∀ (pairs : List (List String × (ℕ × PropSets))) (off : ℕ)
      (hcols : ∀ k, k < pairs.length →
        colIdx results (pairs.getD k ([], (0, ⟨[], [], []⟩))) = off + k)
      (lbl : String) (cells : List Cell) (c : ℕ), c < cells.length →
      (cellsAfter results pairs lbl cells).getD c Cell.empty =
        (if off ≤ c ∧ c - off < pairs.length ∧
            lbl ∈ (pairs.getD (c - off) ([], (0, ⟨[], [], []⟩))).1
        then Cell.num (vD (pairs.getD (c - off) ([], (0, ⟨[], [], []⟩))) lbl)
        else cells.getD c Cell.empty) := by
  intro pairs
  induction pairs with
  | nil =>
    intro off hcols lbl cells c hc
    simp [cellsAfter]
  | cons pr rest ih =>
    intro off hcols lbl cells c hc
    have hcol0 : colIdx results pr = off := by
      simpa using hcols 0 (by simp)
    have hcols2 : ∀ k, k < rest.length →
        colIdx results (rest.getD k ([], (0, ⟨[], [], []⟩))) = (off + 1) + k := by
      intro k hk
      have h3 := hcols (k + 1) (by simpa using Nat.succ_lt_succ hk)
      rw [show (pr :: rest).getD (k + 1) ([], (0, ⟨[], [], []⟩)) =
          rest.getD k ([], (0, ⟨[], [], []⟩)) from rfl] at h3
      omega
    have hlen2 : (if lbl ∈ pr.1 then
        cells.set (colIdx results pr) (Cell.num (vD pr lbl)) else cells).length =
        cells.length := by
      by_cases h : lbl ∈ pr.1 <;> simp [h]
    have hsetne : off ≠ c → (if lbl ∈ pr.1 then
        cells.set (colIdx results pr) (Cell.num (vD pr lbl)) else cells).getD c
          Cell.empty = cells.getD c Cell.empty := by
      intro hne
      by_cases hmem : lbl ∈ pr.1
      · rw [if_pos hmem, hcol0, List.getD_eq_getElem?_getD,
          List.getElem?_set_ne hne, ← List.getD_eq_getElem?_getD]
      · rw [if_neg hmem]
    rw [show cellsAfter results (pr :: rest) lbl cells =
        cellsAfter results rest lbl
          (if lbl ∈ pr.1 then
            cells.set (colIdx results pr) (Cell.num (vD pr lbl)) else cells) from rfl]
    rw [ih (off + 1) hcols2 lbl _ c (by rw [hlen2]; exact hc)]
    rcases Nat.lt_trichotomy c off with hlt | hceq | hgt
    · have hihneg : ¬((off + 1) ≤ c ∧ c - (off + 1) < rest.length ∧
          lbl ∈ (rest.getD (c - (off + 1)) ([], (0, ⟨[], [], []⟩))).1) := by
        rintro ⟨h1, -, -⟩
        omega
      have hgoalneg : ¬(off ≤ c ∧ c - off < (pr :: rest).length ∧
          lbl ∈ ((pr :: rest).getD (c - off) ([], (0, ⟨[], [], []⟩))).1) := by
        rintro ⟨h1, -, -⟩
        omega
      rw [if_neg hihneg, if_neg hgoalneg]
      exact hsetne (by omega)
    · subst hceq
      have hihneg : ¬((c + 1) ≤ c ∧ c - (c + 1) < rest.length ∧
          lbl ∈ (rest.getD (c - (c + 1)) ([], (0, ⟨[], [], []⟩))).1) := by
        rintro ⟨h1, -, -⟩
        omega
      rw [if_neg hihneg]
      rw [show c - c = 0 from by omega, List.getD_cons_zero]
      by_cases hmem : lbl ∈ pr.1
      · have hfull : c ≤ c ∧ 0 < (pr :: rest).length ∧ lbl ∈ pr.1 :=
          ⟨le_refl c, by simp, hmem⟩
        rw [if_pos hfull, if_pos hmem, hcol0, List.getD_eq_getElem?_getD,
          List.getElem?_set_self hc]
        rfl
      · have hq : ¬(c ≤ c ∧ 0 < (pr :: rest).length ∧ lbl ∈ pr.1) := by
          rintro ⟨-, -, h3⟩
          exact hmem h3
        rw [if_neg hq, if_neg hmem]
    · have hgd : (pr :: rest).getD (c - off) ([], (0, ⟨[], [], []⟩)) =
          rest.getD (c - (off + 1)) ([], (0, ⟨[], [], []⟩)) := by
        rw [show c - off = (c - (off + 1)) + 1 from by omega]
        rfl
      rw [hgd]
      by_cases hcond : (off + 1) ≤ c ∧ c - (off + 1) < rest.length ∧
          lbl ∈ (rest.getD (c - (off + 1)) ([], (0, ⟨[], [], []⟩))).1
      · have hgoal : off ≤ c ∧ c - off < (pr :: rest).length ∧
            lbl ∈ (rest.getD (c - (off + 1)) ([], (0, ⟨[], [], []⟩))).1 :=
          ⟨by omega, by simp only [List.length_cons]; omega, hcond.2.2⟩
        rw [if_pos hcond, if_pos hgoal]
      · have hgoalneg : ¬(off ≤ c ∧ c - off < (pr :: rest).length ∧
            lbl ∈ (rest.getD (c - (off + 1)) ([], (0, ⟨[], [], []⟩))).1) := by
          rintro ⟨h1, h2, h3⟩
          exact hcond ⟨by omega, by simp only [List.length_cons] at h2; omega, h3⟩
        rw [if_neg hcond, if_neg hgoalneg]
        exact hsetne (by omega)

/-- C10: with more than one expected-label-set and a count different from
the number of load cases (which matches the result-set count), compilation
raises no error: label-sets are paired with result columns in order until
the shorter side runs out, so a cell of the table is filled exactly when
its column index is both a valid load case and a valid label-set index
whose set requests the row's label - trailing columns stay empty when
label-sets are fewer, surplus label-sets fill nothing when they are more. -/
theorem claim_c10_zip_truncation (results : List (ℕ × PropSets)) (sets : List (List String))
    (num : ℕ)
    (hnum : num = results.length)
    (hgt : 1 < sets.length)
    (hne2 : sets.length ≠ num)
    (hnall : ∀ s ∈ sets, first_is_all s = false)
    (hkeys : (results.map Prod.fst).Nodup)
    (hvalid : ∀ p ∈ sets.flatten, ∀ r ∈ results, ∃ v, prop_value r.2 p = Except.ok v) :
    ∃ T, collect_expected_properties results sets num none = Except.ok T ∧
      T.map Prod.fst = np_unique sets.flatten ∧
      ∀ row ∈ T, row.2.length = num ∧
        ∀ c, c < num →
          ((row.2.getD c Cell.empty ≠ Cell.empty) ↔
            (c < sets.length ∧ row.1 ∈ sets.getD c [])) := by
  have hexp : expand_property_sets sets = sets := by
    rw [expand_property_sets_eq_map]
    have hid : ∀ s ∈ sets, (if first_is_all s then AVAILABLE_PROPERTIES else s) = s := by
      intro s hs
      simp [hnall s hs]
    exact (List.map_congr_left hid).trans (List.map_id sets)
  have hvpairs : ∀ pr ∈ sets.zip results, ∀ p ∈ pr.1,
      ∃ v, prop_value pr.2.2 p = Except.ok v := by
    intro pr hpr p hp
    obtain ⟨hs, hr⟩ := List.of_mem_zip (show (pr.1, pr.2) ∈ sets.zip results by
      simpa using hpr)
    exact hvalid p (List.mem_flatten.mpr ⟨pr.1, hs, hp⟩) pr.2 hr
  unfold collect_expected_properties
  rw [if_neg (by omega)]
  simp only [hexp]
  have hbC : (if sets.length = 1 ∧ 1 < num then (List.replicate num sets).flatten
      else sets) = sets := if_neg (by rintro ⟨h1, -⟩; omega)
  rw [hbC]
  have hguard : ¬(sets.flatten.isEmpty = true ∧ sets.isEmpty = true) := by
    rintro ⟨-, h2⟩
    rw [List.isEmpty_iff] at h2
    rw [h2] at hgt
    simp at hgt
  rw [if_neg hguard]
  rw [fill_ok results (sets.zip results) _ hvpairs]
  refine ⟨_, rfl, ?_, ?_⟩
  · rw [List.map_map, List.map_map]
    exact (List.map_congr_left fun lbl hl => rfl).trans (List.map_id _)
  · intro row hrow
    rw [List.mem_map] at hrow
    obtain ⟨row0, hrow0, rfl⟩ := hrow
    rw [List.mem_map] at hrow0
    obtain ⟨lbl, hlbl, rfl⟩ := hrow0
    constructor
    · rw [cellsAfter_length]
      simp [hnum]
    · intro c hcnum
      have hc : c < (List.replicate results.length Cell.empty).length := by
        rw [List.length_replicate]
        omega
      have hcols : ∀ k, k < (sets.zip results).length →
          colIdx results ((sets.zip results).getD k ([], (0, ⟨[], [], []⟩))) = 0 + k := by
        intro k hk
        have hkr : k < results.length := by
          rw [List.length_zip] at hk
          exact lt_of_lt_of_le hk (min_le_right _ _)
        rw [List.getD_eq_getElem _ _ hk, List.getElem_zip]
        unfold colIdx
        have hkm : k < (results.map Prod.fst).length := by simpa using hkr
        have hio := indexOf_get_nodup (results.map Prod.fst) hkeys k hkm
        rw [show (results.map Prod.fst).get ⟨k, hkm⟩ = (results[k]).1 from by
          simp [List.get_eq_getElem]] at hio
        simpa using hio
      have hchar := cellsAfter_getD results (sets.zip results) 0 hcols lbl
        (List.replicate results.length Cell.empty) c hc
      simp only [Nat.sub_zero, Nat.zero_le, true_and] at hchar
      rw [hchar]
      have hrep : (List.replicate results.length Cell.empty).getD c Cell.empty =
          Cell.empty := by
        rw [List.getD_eq_getElem?_getD, List.getElem?_replicate]
        split <;> rfl
      by_cases hlt : c < sets.length
      · have hlen : c < (sets.zip results).length := by
          rw [List.length_zip]
          exact lt_min hlt (by omega)
        have hget : (sets.zip results).getD c ([], (0, ⟨[], [], []⟩)) =
            (sets[c], results[c]) := by
          rw [List.getD_eq_getElem _ _ hlen, List.getElem_zip]
        have hgets : sets[c] = sets.getD c [] := (List.getD_eq_getElem sets [] hlt).symm
        by_cases hmem : lbl ∈ sets[c]
        · rw [if_pos ⟨hlen, by
            rw [hget]
            exact hmem⟩]
          constructor
          · intro h
            refine ⟨hlt, ?_⟩
            rw [← hgets]
            exact hmem
          · intro h
            simp
        · rw [if_neg (by
            rintro ⟨-, h3⟩
            rw [hget] at h3
            exact hmem h3)]
          rw [hrep]
          constructor
          · intro h
            exact absurd rfl h
          · rintro ⟨-, h3⟩
            rw [← hgets] at h3
            exact absurd h3 hmem
      · rw [if_neg (by
          rintro ⟨h2, -⟩
          rw [List.length_zip] at h2
          exact hlt (lt_of_lt_of_le h2 (min_le_left _ _)))]
        rw [hrep]
        constructor
        · intro h
          exact absurd rfl h
        · rintro ⟨h2, -⟩
          exact absurd h2 hlt


/-- C10 witness: two label-sets against three declared load cases compile
without error, filling only the first two columns. -/
theorem claim_c10_zip_truncation_witness :
    ∃ T, collect_expected_properties
        [(0, ⟨[1, 2, 3], [4, 5, 6, 7, 8, 9], [10, 11, 12, 13, 14, 15]⟩),
         (1, ⟨[1, 2, 3], [4, 5, 6, 7, 8, 9], [10, 11, 12, 13, 14, 15]⟩),
         (2, ⟨[1, 2, 3], [4, 5, 6, 7, 8, 9], [10, 11, 12, 13, 14, 15]⟩)]
        [["E11"], ["E22"]] 3 none = Except.ok T ∧
      T.map Prod.fst = np_unique [["E11"], ["E22"]].flatten ∧
      ∀ row ∈ T, row.2.length = 3 ∧
        ∀ c, c < 3 →
          ((row.2.getD c Cell.empty ≠ Cell.empty) ↔
            (c < ([["E11"], ["E22"]] : List (List String)).length ∧
              row.1 ∈ ([["E11"], ["E22"]] : List (List String)).getD c [])) :=
  claim_c10_zip_truncation
    [(0, ⟨[1, 2, 3], [4, 5, 6, 7, 8, 9], [10, 11, 12, 13, 14, 15]⟩),
     (1, ⟨[1, 2, 3], [4, 5, 6, 7, 8, 9], [10, 11, 12, 13, 14, 15]⟩),
     (2, ⟨[1, 2, 3], [4, 5, 6, 7, 8, 9], [10, 11, 12, 13, 14, 15]⟩)]
    [["E11"], ["E22"]] 3 rfl (by decide) (by decide) (by decide) (by decide)
    (by
      intro p hp r hr
      fin_cases hp <;> fin_cases hr <;> exact ⟨_, rfl⟩)


end AnsysMicro
